import Mathlib

/-!
Verification of the rohm object-mapping layer (a Python library persisting
typed "model" records as hashes in a Redis-like key-value store).

The connection manager (`src/rohm/connection.py`) and the error taxonomy
(`src/rohm/exceptions.py`) are embedded directly from the source.  The model
base class and the field type system (`rohm/models.py`, `rohm/fields.py`) are
not present under `src/` (only their tests and callers are), so those
definitions are modelled from the specification, as marked in their doc
comments.
-/

namespace Rohm

/-- Modelled from the spec: the in-memory value of a field (rohm/fields.py is
missing from the sources).  `Value.none` is the explicit none-value ("known
absent"), `str` a text value, `int` an integer value. -/
inductive Value where
  | none
  | str (s : String)
  | int (n : Int)
deriving DecidableEq

/-- Modelled from the spec: the logical type of a field (rohm/fields.py is
missing): a text type (CharField, identity conversion) and an integer type
(IntegerField, decimal-string conversion). -/
inductive FieldKind where
  | char
  | integer
deriving DecidableEq

/-- Modelled from the spec: one field declaration of a model schema
(rohm/fields.py is missing): a name, a logical type, and a primary-key flag. -/
structure Field where
  name : String
  kind : FieldKind
  primary_key : Bool
deriving DecidableEq

/-- Modelled from the spec: a model schema (rohm/models.py is missing): the
declared fields, the lowercased model name used in store keys, the optional
`ttl` (seconds) and the `save_modified_only` switch. -/
structure ModelSchema where
  model_name : String
  fields : List Field
  ttl : Option Nat
  save_modified_only : Bool

/-- Modelled from the spec: schema derivation at class-definition time
(rohm/models.py is missing): if no declared field is marked primary key, an
implicit integer `id` primary-key field is added in front.  `name` is the
already-lowercased model class name. -/
def mkSchema (name : String) (declared : List Field) (ttl : Option Nat)
    (save_modified_only : Bool) : ModelSchema :=
  if declared.any (fun f => f.primary_key) then
    { model_name := name, fields := declared, ttl := ttl,
      save_modified_only := save_modified_only }
  else
    { model_name := name,
      fields := { name := "id", kind := FieldKind.integer, primary_key := true } :: declared,
      ttl := ttl, save_modified_only := save_modified_only }

/-- Well-formedness of a schema: field names are distinct and exactly one
field carries the primary-key marking. -/
def ModelSchema.wf (sch : ModelSchema) : Prop :=
  (sch.fields.map (fun f => f.name)).Nodup ∧
    (sch.fields.filter (fun f => f.primary_key)).length = 1

instance (sch : ModelSchema) : Decidable sch.wf := by
  unfold ModelSchema.wf
  exact inferInstance

/-- Name of the primary-key field (the first field flagged `primary_key`;
`"id"` as a fallback for ill-formed schemas). -/
def pkName (sch : ModelSchema) : String :=
  match sch.fields.find? (fun f => f.primary_key) with
  | Option.some f => f.name
  | Option.none => "id"

/-- Kind of the primary-key field. -/
def pkKind (sch : ModelSchema) : FieldKind :=
  match sch.fields.find? (fun f => f.primary_key) with
  | Option.some f => f.kind
  | Option.none => FieldKind.integer

/-- Kind of the declared field with the given name. -/
def kindOf (sch : ModelSchema) (n : String) : FieldKind :=
  match sch.fields.find? (fun f => decide (f.name = n)) with
  | Option.some f => f.kind
  | Option.none => FieldKind.char

/-- Modelled from the spec: `to_store` serialization of a non-none value
(rohm/fields.py is missing): text serializes to itself, an integer to its
decimal string. -/
def serializeValue : FieldKind → Value → String
  | FieldKind.char, Value.str s => s
  | FieldKind.integer, Value.int n => toString n
  | _, _ => ""

/-- Modelled from the spec: `from_store` deserialization (rohm/fields.py is
missing): a missing store entry deserializes to the none-value; text is read
back as itself, an integer by parsing the decimal string. -/
def from_store : FieldKind → Option String → Value
  | _, Option.none => Value.none
  | FieldKind.char, Option.some s => Value.str s
  | FieldKind.integer, Option.some s =>
    match s.toInt? with
    | Option.some n => Value.int n
    | Option.none => Value.none

/-- Association-list lookup by string key (first matching entry). -/
def alookup {α : Type} (n : String) : List (String × α) → Option α
  | [] => Option.none
  | p :: t => if p.1 = n then Option.some p.2 else alookup n t

/-- Association-list update: replace the first entry with this key, or append
a fresh entry at the end. -/
def hset {α : Type} (n : String) (v : α) : List (String × α) → List (String × α)
  | [] => [(n, v)]
  | p :: t => if p.1 = n then (n, v) :: t else p :: hset n v t

/-- Association-list removal of every entry with this key. -/
def adel {α : Type} (n : String) (l : List (String × α)) : List (String × α) :=
  l.filter (fun p => decide (p.1 ≠ n))

/-- Apply a list of field/value updates in order (bulk field-set). -/
def setMany {α : Type} (l : List (String × α)) : List (String × α) → List (String × α)
  | [] => l
  | p :: t => setMany (hset p.1 p.2 l) t

/-- Delete each named field in order. -/
def delMany {α : Type} (l : List (String × α)) (names : List String) : List (String × α) :=
  names.foldl (fun acc m => adel m acc) l

/-- A stored hash record: field name to stored string. -/
abbrev Hash := List (String × String)

/-- The key-value store: key to hash record.  A key with an empty (or absent)
hash does not exist, matching the store's behavior where deleting the last
field of a hash removes the key. -/
abbrev Store := List (String × Hash)

/-- Full-hash-read: the hash at a key, empty when the key is absent. -/
def hgetall (st : Store) (key : String) : Hash :=
  (alookup key st).getD []

/-- Single-field-read of a hash field. -/
def hget (st : Store) (key fieldName : String) : Option String :=
  alookup fieldName (hgetall st key)

/-- Key-existence check used by the save conflict detection. -/
def keyExists (st : Store) (key : String) : Bool :=
  !(hgetall st key).isEmpty

/-- A store write command as queued on a pipeline: bulk field-set,
field-delete, or expire. -/
inductive Cmd where
  | hmset (key : String) (pairs : List (String × String))
  | hdel (key : String) (fieldName : String)
  | expire (key : String) (seconds : Nat)
deriving DecidableEq

/-- The key a command addresses. -/
def Cmd.key : Cmd → String
  | Cmd.hmset k _ => k
  | Cmd.hdel k _ => k
  | Cmd.expire k _ => k

/-- Whether a command is an expire command. -/
def Cmd.isExpire : Cmd → Bool
  | Cmd.expire _ _ => true
  | _ => false

/-- Whether a command is a bulk field-set command. -/
def Cmd.isHmset : Cmd → Bool
  | Cmd.hmset _ _ => true
  | _ => false

/-- The field/value pairs of a bulk field-set command. -/
def Cmd.pairsOf : Cmd → List (String × String)
  | Cmd.hmset _ ps => ps
  | _ => []

/-- All field/value pairs carried by the bulk field-set commands of a
command list. -/
def hmsetPairs : List Cmd → List (String × String)
  | [] => []
  | c :: t => Cmd.pairsOf c ++ hmsetPairs t

/-- The write commands of a pipeline (everything except expire). -/
def writeCmds (cmds : List Cmd) : List Cmd :=
  cmds.filter (fun c => !(Cmd.isExpire c))

/-- Effect of one command on the store (expire does not change stored field
values; time-to-live bookkeeping is not part of the store state). -/
def applyCmd (st : Store) : Cmd → Store
  | Cmd.hmset key pairs => hset key (setMany (hgetall st key) pairs) st
  | Cmd.hdel key f => hset key (adel f (hgetall st key)) st
  | Cmd.expire _ _ => st

/-- Execute a pipeline: apply its commands in order. -/
def applyCmds (st : Store) (cmds : List Cmd) : Store :=
  cmds.foldl applyCmd st

/-- Effect of one command on a single hash record. -/
def applyCmdH (h : Hash) : Cmd → Hash
  | Cmd.hmset _ pairs => setMany h pairs
  | Cmd.hdel _ f => adel f h
  | Cmd.expire _ _ => h

/-- The error taxonomy, embedded from src/rohm/exceptions.py: `DoesNotExist`,
`AlreadyExists` and `FieldValidationError` (the latter is the "InvalidField"
failure kind of the spec). -/
inductive RErr where
  | DoesNotExist
  | AlreadyExists
  | FieldValidationError
deriving DecidableEq

/-- Modelled from the spec: one in-memory model instance (rohm/models.py is
missing): `_data` maps field name to current typed value,
`_loaded_field_names` is the set of fields known to be loaded, `_orig_data`
the last-known-persisted snapshot used by modification tracking, and `_new`
records that the instance was constructed fresh rather than loaded. -/
structure MInstance where
  _data : List (String × Value)
  _loaded_field_names : List String
  _orig_data : List (String × Value)
  _new : Bool
deriving DecidableEq

/-- Modelled from the spec: direct construction of an instance
(rohm/models.py is missing): every declared field is populated (unspecified
fields default to the none-value) and marked loaded; the persisted snapshot
is empty and the instance is fresh. -/
def Model.init (sch : ModelSchema) (kwargs : List (String × Value)) : MInstance :=
  { _data := sch.fields.map (fun f => (f.name, (alookup f.name kwargs).getD Value.none)),
    _loaded_field_names := sch.fields.map (fun f => f.name),
    _orig_data := [],
    _new := true }

/-- The data populated from a stored hash: the primary key comes from the
requested id, every other declared field is deserialized from the hash. -/
def loadData (sch : ModelSchema) (idv : Value) (h : Hash) : List (String × Value) :=
  sch.fields.map (fun f =>
    (f.name, if f.primary_key then idv else from_store f.kind (alookup f.name h)))

/-- Modelled from the spec: an instance produced by a load operation
(rohm/models.py is missing): every declared field is populated and marked
loaded, the snapshot equals the loaded data, and the instance is not fresh. -/
def loadInstance (sch : ModelSchema) (idv : Value) (h : Hash) : MInstance :=
  { _data := loadData sch idv h,
    _loaded_field_names := sch.fields.map (fun f => f.name),
    _orig_data := loadData sch idv h,
    _new := false }

/-- The current primary-key value of an instance. -/
def pkValue (sch : ModelSchema) (inst : MInstance) : Value :=
  (alookup (pkName sch) inst._data).getD Value.none

/-- The derived store key of a record: lowercased model name, a colon, and
the primary-key value serialized by the primary-key field's type. -/
def redisKey (sch : ModelSchema) (v : Value) : String :=
  sch.model_name ++ ":" ++ serializeValue (pkKind sch) v

/-- The store key derived from an instance's current primary-key value. -/
def instKey (sch : ModelSchema) (inst : MInstance) : String :=
  redisKey sch (pkValue sch inst)

/-- Modelled from the spec: modification tracking (rohm/models.py is
missing): the fields whose current value differs from the persisted
snapshot, excluding the primary key. -/
def _get_modified_fields (sch : ModelSchema) (inst : MInstance) : List (String × Value) :=
  inst._data.filter (fun p =>
    decide (p.1 ≠ pkName sch) && decide (alookup p.1 inst._orig_data ≠ Option.some p.2))

/-- Modelled from the spec: the save payload (rohm/models.py is missing):
only the modified fields when `save_modified_only` is set, otherwise every
declared field's current value. -/
def save_payload (sch : ModelSchema) (inst : MInstance) : List (String × Value) :=
  if sch.save_modified_only then _get_modified_fields sch inst
  else sch.fields.map (fun f => (f.name, (alookup f.name inst._data).getD Value.none))

/-- The payload fields holding the none-value (scheduled for field-delete). -/
def save_nones (sch : ModelSchema) (inst : MInstance) : List (String × Value) :=
  (save_payload sch inst).filter (fun p => decide (p.2 = Value.none))

/-- The payload fields holding a non-none value (scheduled for the bulk
field-set). -/
def save_sets (sch : ModelSchema) (inst : MInstance) : List (String × Value) :=
  (save_payload sch inst).filter (fun p => decide (p.2 ≠ Value.none))

/-- The serialized field/value pairs of the bulk field-set. -/
def save_pairs (sch : ModelSchema) (inst : MInstance) : List (String × String) :=
  (save_sets sch inst).map (fun p => (p.1, serializeValue (kindOf sch p.1) p.2))

/-- Modelled from the spec: the pipeline a non-empty save queues
(rohm/models.py is missing): the field-deletes, then the bulk field-set
(when it has any pair), then the expire command when the schema declares a
ttl.  All commands address the derived key and form one atomic pipeline. -/
def save_cmd_list (sch : ModelSchema) (inst : MInstance) : List Cmd :=
  (save_nones sch inst).map (fun p => Cmd.hdel (instKey sch inst) p.1)
    ++ (if (save_pairs sch inst).isEmpty then [] else
        [Cmd.hmset (instKey sch inst) (save_pairs sch inst)])
    ++ (match sch.ttl with
        | Option.some t => [Cmd.expire (instKey sch inst) t]
        | Option.none => [])

/-- Modelled from the spec: post-save bookkeeping (rohm/models.py is
missing): the snapshot becomes the just-saved values, every declared field
is marked loaded, and the instance is no longer fresh. -/
def markSaved (sch : ModelSchema) (inst : MInstance) : MInstance :=
  { inst with
    _orig_data := inst._data,
    _loaded_field_names := sch.fields.map (fun f => f.name),
    _new := false }

/-- Modelled from the spec: the command-producing core of `save`
(rohm/models.py is missing).  Checks the primary key, then the
fresh-instance conflict (skipped under `force_create`), then computes the
payload; an empty modified-only payload performs no store operations at
all. -/
def save_cmds (sch : ModelSchema) (inst : MInstance) (force_create : Bool) (st : Store) :
    Except RErr (List Cmd × MInstance) :=
  if pkValue sch inst = Value.none then Except.error RErr.FieldValidationError
  else if inst._new && !force_create && keyExists st (instKey sch inst) then
    Except.error RErr.AlreadyExists
  else if sch.save_modified_only && (save_payload sch inst).isEmpty then
    Except.ok ([], markSaved sch inst)
  else
    Except.ok (save_cmd_list sch inst, markSaved sch inst)

/-- Modelled from the spec: `save` (rohm/models.py is missing): queue the
commands on a fresh pipeline and execute it, returning the new store, the
updated instance, and the pipeline's command list. -/
def save (sch : ModelSchema) (inst : MInstance) (force_create : Bool) (st : Store) :
    Except RErr (Store × MInstance × List Cmd) :=
  match save_cmds sch inst force_create st with
  | Except.error e => Except.error e
  | Except.ok (cmds, inst2) => Except.ok (applyCmds st cmds, inst2, cmds)

/-- Whether a save result is a success. -/
def saveOk : Except RErr (Store × MInstance × List Cmd) → Bool
  | Except.ok _ => true
  | Except.error _ => false

/-- The store of a save result, or the fallback store when the save failed
(a failed save issues no store command). -/
def resultStore : Except RErr (Store × MInstance × List Cmd) → Store → Store
  | Except.ok (st, _, _), _ => st
  | Except.error _, fallback => fallback

/-- The command list of a save result (empty when the save failed). -/
def resultCmds : Except RErr (Store × MInstance × List Cmd) → List Cmd
  | Except.ok (_, _, cmds) => cmds
  | Except.error _ => []

/-- Modelled from the spec: field read interception (rohm/fields.py is
missing): a loaded field is answered from `_data` with no store access; an
unloaded field triggers exactly one single-field read, whose converted
result is recorded in `_data` and whose name is added to
`_loaded_field_names`.  The third component lists the single-field reads the
access issued, as (key, field) pairs. -/
def getattr (sch : ModelSchema) (inst : MInstance) (st : Store) (fname : String) :
    Value × MInstance × List (String × String) :=
  if fname ∈ inst._loaded_field_names then
    ((alookup fname inst._data).getD Value.none, inst, [])
  else
    ((from_store (kindOf sch fname) (hget st (instKey sch inst) fname)),
      { inst with
        _data := hset fname (from_store (kindOf sch fname) (hget st (instKey sch inst) fname))
          inst._data,
        _loaded_field_names := fname :: inst._loaded_field_names },
      [(instKey sch inst, fname)])

/-- Modelled from the spec: one slot of a batch get (rohm/models.py is
missing): a present record is loaded; a missing record with `allow_create`
attempts the `create_from_id` hook, a raising hook (`Except.error`) becomes
a none slot; without `allow_create` a missing record fails the call. -/
def get_one (sch : ModelSchema) (st : Store) (allow_create : Bool)
    (hook : Value → Except String MInstance) (idv : Value) :
    Except RErr (Option MInstance) :=
  if (hgetall st (redisKey sch idv)).isEmpty then
    if allow_create then Except.ok (hook idv).toOption
    else Except.error RErr.DoesNotExist
  else Except.ok (Option.some (loadInstance sch idv (hgetall st (redisKey sch idv))))

/-- Modelled from the spec: batch `get` (rohm/models.py is missing): one
lookup per id, preserving input order; any failing slot aborts the whole
call. -/
def get_multi (sch : ModelSchema) (st : Store) (allow_create : Bool)
    (hook : Value → Except String MInstance) :
    List Value → Except RErr (List (Option MInstance))
  | [] => Except.ok []
  | idv :: rest =>
    match get_one sch st allow_create hook idv with
    | Except.error e => Except.error e
    | Except.ok slot =>
      match get_multi sch st allow_create hook rest with
      | Except.error e => Except.error e
      | Except.ok others => Except.ok (slot :: others)

/-- A store client handle, embedded from src/rohm/connection.py: either a
constructed `StrictRedis` client (host, port, optional password) or a
caller-supplied foreign client object (a test double), identified by a tag. -/
inductive Client where
  | StrictRedis (host : String) (port : Nat) (password : Option String)
  | mock (tag : Nat)
deriving DecidableEq

/-- The default-configured client `StrictRedis()` (default host, default
port, no password), as constructed by `get_connection` on first use. -/
def defaultStrictRedis : Client :=
  Client.StrictRedis "localhost" 6379 Option.none

/-- Embedded from src/rohm/connection.py: `set_connection_settings` builds a
new client from the parameters and installs it, replacing any previous
handle (the module-global `connection` is passed and returned explicitly). -/
def set_connection_settings (host : String) (port : Nat) (password : Option String)
    (_conn : Option Client) : Option Client :=
  Option.some (Client.StrictRedis host port password)

/-- Embedded from src/rohm/connection.py: `set_client` installs a
caller-supplied client object directly. -/
def set_client (c : Client) (_conn : Option Client) : Option Client :=
  Option.some c

/-- Embedded from src/rohm/connection.py: `get_connection` returns the
installed handle, lazily constructing and installing the default client when
none is installed; the returned pair is (returned client, handle state after
the call). -/
def get_connection : Option Client → Client × Option Client
  | Option.none => (defaultStrictRedis, Option.some defaultStrictRedis)
  | Option.some c => (c, Option.some c)

/-- Modelled from the spec: field assignment (rohm/models.py is missing):
attribute assignment updates `_data` only; `_loaded_field_names` only grows
through loads and `_orig_data` only changes on save/load. -/
def setattr (inst : MInstance) (n : String) (v : Value) : MInstance :=
  { inst with _data := hset n v inst._data }

/-- A character field declaration used by the concrete examples. -/
def charField (n : String) (pk : Bool) : Field :=
  { name := n, kind := FieldKind.char, primary_key := pk }

/-- Example schema: explicit char primary key `name` plus a char `body`
field, no ttl, `save_modified_only` false (the defaults). -/
def fooSchema : ModelSchema :=
  mkSchema "foo" [charField "name" true, charField "body" false] Option.none false

/-- Example schema with `save_modified_only` set. -/
def fooSchemaMod : ModelSchema :=
  mkSchema "foo" [charField "name" true, charField "body" false] Option.none true

/-- Example schema with `ttl = 30`. -/
def fooSchemaTtl : ModelSchema :=
  mkSchema "foo" [charField "name" true, charField "body" false] (Option.some 30) false

/-- Example schema with `ttl = 30` and `save_modified_only` set. -/
def fooSchemaTtlMod : ModelSchema :=
  mkSchema "foo" [charField "name" true, charField "body" false] (Option.some 30) true

/-- An example store holding one record at key `foo:baz`. -/
def fooStore : Store :=
  [("foo:baz", [("name", "baz"), ("body", "stuff")])]

/-- An instance loaded from the example record. -/
def fooInstLoaded : MInstance :=
  loadInstance fooSchema (Value.str "baz") [("name", "baz"), ("body", "stuff")]

/-- An instance on which only the primary key has been loaded. -/
def fooInstPart : MInstance :=
  { _data := [("name", Value.str "baz")], _loaded_field_names := ["name"],
    _orig_data := [("name", Value.str "baz")], _new := false }

/-- The stored string a saved payload entry should leave behind: nothing for
the none-value (the field is deleted), otherwise the value serialized by the
field's type. -/
def expectedStored (sch : ModelSchema) (n : String) : Value → Option String
  | Value.none => Option.none
  | v => Option.some (serializeValue (kindOf sch n) v)

/-- After a force-create save, the store record at the instance's key holds
exactly the instance's serialized value for every non-primary-key declared
field (the field is absent when the value is the none-value). -/
def reflectsNonPk (sch : ModelSchema) (inst : MInstance) (st : Store) : Bool :=
  sch.fields.all fun f =>
    f.primary_key ||
      decide (hget st (instKey sch inst) f.name =
        expectedStored sch f.name ((alookup f.name inst._data).getD Value.none))

/-- Every payload field with the none-value is issued as a field-delete (and
ends up absent from the stored hash); every payload field with a non-none
value appears, serialized by its type, among the pairs of the bulk
field-set commands. -/
def partitionOk (sch : ModelSchema) (inst : MInstance) (cmds : List Cmd) (st : Store) :
    Bool :=
  (save_payload sch inst).all fun p =>
    match p.2 with
    | Value.none =>
      decide (Cmd.hdel (instKey sch inst) p.1 ∈ cmds) &&
        decide (hget st (instKey sch inst) p.1 = Option.none)
    | v =>
      decide ((p.1, serializeValue (kindOf sch p.1) v) ∈ hmsetPairs cmds)

/-- Every declared field's current value is transmitted by the pipeline: a
none-valued field as a field-delete command, any other field inside a bulk
field-set command, serialized by its declared type. -/
def transmitsAll (sch : ModelSchema) (inst : MInstance) (cmds : List Cmd) : Bool :=
  sch.fields.all fun f =>
    match (alookup f.name inst._data).getD Value.none with
    | Value.none => decide (Cmd.hdel (instKey sch inst) f.name ∈ cmds)
    | v => decide ((f.name, serializeValue f.kind v) ∈ hmsetPairs cmds)

/-! ### Association-list and store lemmas -/

theorem alookup_hset_self {α : Type} (n : String) (v : α) (l : List (String × α)) :
    alookup n (hset n v l) = Option.some v := by
  induction l with
  | nil => simp [hset, alookup]
  | cons p t ih =>
    by_cases h : p.1 = n
    · simp [hset, h, alookup]
    · simp [hset, h, alookup, ih]

theorem alookup_hset_ne {α : Type} (m n : String) (v : α) (l : List (String × α))
    (h : m ≠ n) : alookup m (hset n v l) = alookup m l := by
  induction l with
  | nil => simp [hset, alookup, Ne.symm h]
  | cons p t ih =>
    by_cases hp : p.1 = n
    · simp [hset, hp, alookup, Ne.symm h]
    · simp [hset, hp, alookup, ih]

theorem alookup_adel_self {α : Type} (n : String) (l : List (String × α)) :
    alookup n (adel n l) = Option.none := by
  induction l with
  | nil => simp [adel, alookup]
  | cons p t ih =>
    by_cases h : p.1 = n
    · simpa [adel, List.filter_cons, h] using ih
    · simpa [adel, List.filter_cons, h, alookup] using ih

theorem alookup_adel_ne {α : Type} (m n : String) (l : List (String × α))
    (h : m ≠ n) : alookup m (adel n l) = alookup m l := by
  induction l with
  | nil => simp [adel, alookup]
  | cons p t ih =>
    by_cases hp : p.1 = n
    · have hm : ¬p.1 = m := fun hq => h (hq ▸ hp)
      have h1 : adel n (p :: t) = adel n t := by
        simp [adel, List.filter_cons, hp]
      have h2 : alookup m (p :: t) = alookup m t := by
        simp only [alookup, if_neg hm]
      rw [h1, h2]
      exact ih
    · have h1 : adel n (p :: t) = p :: adel n t := by
        simp [adel, List.filter_cons, hp]
      rw [h1]
      simp only [alookup, ih]

theorem alookup_setMany_not_mem {α : Type} (n : String) (l pairs : List (String × α))
    (h : n ∉ pairs.map Prod.fst) :
    alookup n (setMany l pairs) = alookup n l := by
  induction pairs generalizing l with
  | nil => rfl
  | cons p t ih =>
    simp only [List.map_cons, List.mem_cons, not_or] at h
    show alookup n (setMany (hset p.1 p.2 l) t) = alookup n l
    rw [ih _ h.2, alookup_hset_ne n p.1 p.2 l h.1]

theorem alookup_setMany_mem {α : Type} (n : String) (v : α) (l pairs : List (String × α))
    (hnd : (pairs.map Prod.fst).Nodup) (hm : (n, v) ∈ pairs) :
    alookup n (setMany l pairs) = Option.some v := by
  induction pairs generalizing l with
  | nil => cases hm
  | cons p t ih =>
    simp only [List.map_cons, List.nodup_cons] at hnd
    cases hm with
    | head =>
      show alookup n (setMany (hset n v l) t) = Option.some v
      rw [alookup_setMany_not_mem _ _ _ hnd.1, alookup_hset_self]
    | tail _ hmem =>
      show alookup n (setMany (hset p.1 p.2 l) t) = Option.some v
      exact ih _ hnd.2 hmem

theorem alookup_delMany {α : Type} (n : String) (l : List (String × α))
    (names : List String) :
    alookup n (delMany l names) = if n ∈ names then Option.none else alookup n l := by
  induction names generalizing l with
  | nil => simp [delMany]
  | cons m t ih =>
    show alookup n (delMany (adel m l) t) = _
    rw [ih]
    by_cases hm : n = m
    · subst hm
      by_cases ht : n ∈ t
      · simp [ht]
      · simp [ht, alookup_adel_self]
    · by_cases ht : n ∈ t
      · simp [ht, hm]
      · simp [ht, hm, alookup_adel_ne _ _ _ hm]

theorem alookup_eq_of_mem_nodup {α : Type} (n : String) (a : α) (l : List (String × α))
    (hnd : (l.map Prod.fst).Nodup) (hm : (n, a) ∈ l) :
    alookup n l = Option.some a := by
  induction l with
  | nil => cases hm
  | cons p t ih =>
    simp only [List.map_cons, List.nodup_cons] at hnd
    cases hm with
    | head => simp [alookup]
    | tail _ hmem =>
      have hne : p.1 ≠ n := by
        intro he
        exact hnd.1 (he ▸ List.mem_map_of_mem Prod.fst hmem)
      simp [alookup, hne, ih hnd.2 hmem]

theorem mem_nodup_unique {α : Type} (n : String) (a b : α) (l : List (String × α))
    (hnd : (l.map Prod.fst).Nodup) (ha : (n, a) ∈ l) (hb : (n, b) ∈ l) : a = b := by
  have h1 := alookup_eq_of_mem_nodup n a l hnd ha
  have h2 := alookup_eq_of_mem_nodup n b l hnd hb
  rw [h1] at h2
  exact Option.some.inj h2

theorem alookup_map_name {β : Type} (fields : List Field) (val : String → β) (n : String)
    (h : n ∈ fields.map (fun f => f.name)) :
    alookup n (fields.map (fun f => (f.name, val f.name))) = Option.some (val n) := by
  induction fields with
  | nil => cases h
  | cons f t ih =>
    by_cases hf : f.name = n
    · simp [alookup, hf]
    · simp only [List.map_cons, List.mem_cons] at h
      have hmem : n ∈ t.map (fun f => f.name) := by
        cases h with
        | inl he => exact absurd he.symm hf
        | inr ht => exact ht
      simp [alookup, hf, ih hmem]

theorem hgetall_hset_self (key : String) (h : Hash) (st : Store) :
    hgetall (hset key h st) key = h := by
  rw [hgetall, alookup_hset_self]
  rfl

theorem hgetall_applyCmd (st : Store) (c : Cmd) :
    hgetall (applyCmd st c) c.key = applyCmdH (hgetall st c.key) c := by
  cases c <;> simp [applyCmd, applyCmdH, Cmd.key, hgetall_hset_self]

theorem hgetall_applyCmds (st : Store) (cmds : List Cmd) (k : String)
    (h : ∀ c ∈ cmds, c.key = k) :
    hgetall (applyCmds st cmds) k = cmds.foldl applyCmdH (hgetall st k) := by
  induction cmds generalizing st with
  | nil => rfl
  | cons c t ih =>
    have hk : c.key = k := h c (List.mem_cons_self _ _)
    show hgetall (applyCmds (applyCmd st c) t) k = _
    rw [ih _ (fun d hd => h d (List.mem_cons_of_mem _ hd)), List.foldl_cons]
    congr 1
    rw [← hk, hgetall_applyCmd]

/-! ### Schema lemmas -/

theorem find?_of_filter_singleton {α : Type} (p : α → Bool) (l : List α) (a : α)
    (h : l.filter p = [a]) : l.find? p = Option.some a := by
  induction l with
  | nil => simp at h
  | cons x t ih =>
    by_cases hx : p x
    · rw [List.filter_cons_of_pos hx] at h
      have hxa : x = a := (List.cons.injEq _ _ _ _ ▸ h).1
      rw [List.find?_cons_of_pos _ hx, hxa]
    · rw [List.filter_cons_of_neg hx] at h
      rw [List.find?_cons_of_neg _ hx]
      exact ih h

theorem pk_spec (sch : ModelSchema) (hwf : sch.wf) :
    ∃ pf, pf ∈ sch.fields ∧ pf.primary_key = true ∧
      pkName sch = pf.name ∧ pkKind sch = pf.kind := by
  obtain ⟨pf, hf⟩ := List.length_eq_one.mp hwf.2
  have hmem : pf ∈ sch.fields.filter (fun f => f.primary_key) := by
    rw [hf]; exact List.mem_singleton.mpr rfl
  have h1 := List.mem_filter.mp hmem
  have hfind := find?_of_filter_singleton (fun f => f.primary_key) sch.fields pf hf
  exact ⟨pf, h1.1, h1.2, by rw [pkName, hfind], by rw [pkKind, hfind]⟩

theorem name_inj (sch : ModelSchema) (hwf : sch.wf) {f g : Field}
    (hf : f ∈ sch.fields) (hg : g ∈ sch.fields) (h : f.name = g.name) : f = g :=
  List.inj_on_of_nodup_map hwf.1 hf hg h

theorem nonpk_ne_pkName (sch : ModelSchema) (hwf : sch.wf) {f : Field}
    (hf : f ∈ sch.fields) (hnpk : f.primary_key = false) : f.name ≠ pkName sch := by
  obtain ⟨pf, hpm, hpk, hpn, _⟩ := pk_spec sch hwf
  rw [hpn]
  intro he
  have : f = pf := name_inj sch hwf hf hpm he
  rw [this, hpk] at hnpk
  cases hnpk

theorem find?_name (l : List Field) (f : Field)
    (hnd : (l.map (fun g => g.name)).Nodup) (hf : f ∈ l) :
    l.find? (fun g => decide (g.name = f.name)) = Option.some f := by
  induction l with
  | nil => cases hf
  | cons x t ih =>
    simp only [List.map_cons, List.nodup_cons] at hnd
    cases hf with
    | head => simp [List.find?]
    | tail _ hmem =>
      have hx : x.name ≠ f.name := by
        intro he
        exact hnd.1 (he ▸ List.mem_map_of_mem (fun g => g.name) hmem)
      rw [List.find?_cons_of_neg _ (by simpa using hx)]
      exact ih hnd.2 hmem

theorem kindOf_eq (sch : ModelSchema) (hwf : sch.wf) {f : Field} (hf : f ∈ sch.fields) :
    kindOf sch f.name = f.kind := by
  rw [kindOf, find?_name sch.fields f hwf.1 hf]

/-! ### Save pipeline lemmas -/

theorem expectedStored_none (sch : ModelSchema) (n : String) :
    expectedStored sch n Value.none = Option.none := rfl

theorem expectedStored_ne_none (sch : ModelSchema) (n : String) (v : Value)
    (h : v ≠ Value.none) :
    expectedStored sch n v = Option.some (serializeValue (kindOf sch n) v) := by
  cases v with
  | none => exact absurd rfl h
  | str s => rfl
  | int k => rfl

theorem save_cmd_list_keys (sch : ModelSchema) (inst : MInstance) :
    ∀ c ∈ save_cmd_list sch inst, c.key = instKey sch inst := by
  intro c hc
  rw [save_cmd_list] at hc
  simp only [List.mem_append] at hc
  rcases hc with (hd | hs) | ht
  · obtain ⟨p, _, hp⟩ := List.mem_map.mp hd
    rw [← hp]
    rfl
  · by_cases he : (save_pairs sch inst).isEmpty
    · rw [if_pos he] at hs
      cases hs
    · rw [if_neg he] at hs
      have := List.mem_singleton.mp hs
      rw [this]
      rfl
  · cases httl : sch.ttl with
    | none => rw [httl] at ht; cases ht
    | some t =>
      rw [httl] at ht
      have := List.mem_singleton.mp ht
      rw [this]
      rfl

theorem foldl_applyCmdH_dels (h : Hash) (key : String) (ps : List (String × Value)) :
    List.foldl applyCmdH h (ps.map (fun p => Cmd.hdel key p.1)) =
      delMany h (ps.map Prod.fst) := by
  induction ps generalizing h with
  | nil => rfl
  | cons p t ih =>
    simp only [List.map_cons, List.foldl_cons]
    rw [show applyCmdH h (Cmd.hdel key p.1) = adel p.1 h from rfl, ih]
    rfl

theorem foldl_applyCmdH_save (sch : ModelSchema) (inst : MInstance) (h : Hash) :
    List.foldl applyCmdH h (save_cmd_list sch inst) =
      setMany (delMany h ((save_nones sch inst).map Prod.fst)) (save_pairs sch inst) := by
  rw [save_cmd_list]
  rw [List.foldl_append, List.foldl_append, foldl_applyCmdH_dels]
  by_cases he : (save_pairs sch inst).isEmpty
  · have hp : save_pairs sch inst = [] := List.isEmpty_iff.mp he
    rw [if_pos he, hp]
    cases httl : sch.ttl <;>
      simp [setMany, applyCmdH, List.foldl_cons, List.foldl_nil]
  · rw [if_neg he]
    cases httl : sch.ttl <;>
      simp [applyCmdH, List.foldl_cons, List.foldl_nil]

theorem pairs_fst (sch : ModelSchema) (inst : MInstance) :
    (save_pairs sch inst).map Prod.fst = (save_sets sch inst).map Prod.fst := by
  rw [save_pairs, List.map_map]
  rfl

theorem sets_fst_sublist (sch : ModelSchema) (inst : MInstance) :
    List.Sublist ((save_sets sch inst).map Prod.fst)
      ((save_payload sch inst).map Prod.fst) :=
  (List.filter_sublist _).map Prod.fst

theorem hget_after_save_cmd_list (sch : ModelSchema) (inst : MInstance) (st : Store)
    (hnd : ((save_payload sch inst).map Prod.fst).Nodup)
    (n : String) (v : Value) (hm : (n, v) ∈ save_payload sch inst) :
    hget (applyCmds st (save_cmd_list sch inst)) (instKey sch inst) n =
      expectedStored sch n v := by
  rw [hget, hgetall_applyCmds _ _ _ (save_cmd_list_keys sch inst), foldl_applyCmdH_save]
  by_cases hv : v = Value.none
  · subst hv
    have hn : (n, Value.none) ∈ save_nones sch inst := by
      rw [save_nones]
      exact List.mem_filter.mpr ⟨hm, by simp⟩
    have hmem : n ∈ (save_nones sch inst).map Prod.fst :=
      List.mem_map_of_mem Prod.fst hn
    have hnot : n ∉ (save_pairs sch inst).map Prod.fst := by
      rw [pairs_fst]
      intro hc
      obtain ⟨q, hq, hqn⟩ := List.mem_map.mp hc
      have hq1 : q ∈ save_payload sch inst := (List.mem_filter.mp hq).1
      have hq3 : q.2 ≠ Value.none := by
        simpa using (List.mem_filter.mp hq).2
      have hq4 : (n, q.2) ∈ save_payload sch inst := by
        rw [← hqn]
        exact (Prod.mk.eta (p := q)) ▸ hq1
      exact hq3 (mem_nodup_unique n q.2 Value.none _ hnd hq4 hm)
    rw [alookup_setMany_not_mem _ _ _ hnot, alookup_delMany]
    simp [hmem, expectedStored_none]
  · have hs : (n, v) ∈ save_sets sch inst := by
      rw [save_sets]
      exact List.mem_filter.mpr ⟨hm, by simpa using hv⟩
    have hp : (n, serializeValue (kindOf sch n) v) ∈ save_pairs sch inst := by
      rw [save_pairs]
      exact List.mem_map.mpr ⟨(n, v), hs, rfl⟩
    have hpnd : ((save_pairs sch inst).map Prod.fst).Nodup := by
      rw [pairs_fst]
      exact hnd.sublist (sets_fst_sublist sch inst)
    rw [alookup_setMany_mem _ _ _ _ hpnd hp, expectedStored_ne_none _ _ _ hv]

theorem hmsetPairs_append (a b : List Cmd) :
    hmsetPairs (a ++ b) = hmsetPairs a ++ hmsetPairs b := by
  induction a with
  | nil => rfl
  | cons c t ih => simp [hmsetPairs, ih, List.append_assoc]

theorem hmsetPairs_dels (key : String) (ps : List (String × Value)) :
    hmsetPairs (ps.map (fun p => Cmd.hdel key p.1)) = [] := by
  induction ps with
  | nil => rfl
  | cons p t ih => simpa [hmsetPairs, Cmd.pairsOf] using ih

theorem hmsetPairs_save_cmd_list (sch : ModelSchema) (inst : MInstance) :
    hmsetPairs (save_cmd_list sch inst) = save_pairs sch inst := by
  rw [save_cmd_list, hmsetPairs_append, hmsetPairs_append, hmsetPairs_dels]
  by_cases he : (save_pairs sch inst).isEmpty
  · have hp : save_pairs sch inst = [] := List.isEmpty_iff.mp he
    rw [if_pos he, hp]
    cases httl : sch.ttl <;> simp [hmsetPairs, Cmd.pairsOf]
  · rw [if_neg he]
    cases httl : sch.ttl <;> simp [hmsetPairs, Cmd.pairsOf]

theorem hdel_mem_save_cmd_list (sch : ModelSchema) (inst : MInstance) (n : String)
    (hm : (n, Value.none) ∈ save_payload sch inst) :
    Cmd.hdel (instKey sch inst) n ∈ save_cmd_list sch inst := by
  rw [save_cmd_list]
  simp only [List.mem_append]
  left
  left
  exact List.mem_map.mpr ⟨(n, Value.none),
    List.mem_filter.mpr ⟨hm, by simp⟩, rfl⟩

theorem payload_fst_nodup (sch : ModelSchema) (inst : MInstance) (hwf : sch.wf)
    (hnd : (inst._data.map Prod.fst).Nodup) :
    ((save_payload sch inst).map Prod.fst).Nodup := by
  rw [save_payload]
  by_cases hs : sch.save_modified_only
  · rw [if_pos hs, _get_modified_fields]
    exact hnd.sublist ((List.filter_sublist _).map Prod.fst)
  · rw [if_neg hs, List.map_map]
    exact hwf.1

theorem save_ok_cases (sch : ModelSchema) (inst : MInstance) (fc : Bool) (st : Store)
    (st' : Store) (inst' : MInstance) (cmds : List Cmd)
    (hok : save sch inst fc st = Except.ok (st', inst', cmds)) :
    inst' = markSaved sch inst ∧ st' = applyCmds st cmds ∧
      (cmds = [] ∧ save_payload sch inst = [] ∨ cmds = save_cmd_list sch inst) := by
  rw [save] at hok
  cases hsc : save_cmds sch inst fc st with
  | error e => rw [hsc] at hok; cases hok
  | ok pr =>
    obtain ⟨cmds0, inst0⟩ := pr
    rw [hsc] at hok
    simp only [Except.ok.injEq, Prod.mk.injEq] at hok
    obtain ⟨hst, hinst, hcmds⟩ := hok
    rw [save_cmds] at hsc
    split_ifs at hsc with h3 h4 h5
    · simp only [Except.ok.injEq, Prod.mk.injEq] at hsc
      obtain ⟨hc0, hi0⟩ := hsc
      subst hc0
      subst hi0
      simp only [Bool.and_eq_true] at h5
      exact ⟨hinst.symm, by rw [← hcmds]; exact hst.symm,
        Or.inl ⟨hcmds.symm, List.isEmpty_iff.mp h5.2⟩⟩
    · simp only [Except.ok.injEq, Prod.mk.injEq] at hsc
      obtain ⟨hc0, hi0⟩ := hsc
      subst hc0
      subst hi0
      exact ⟨hinst.symm, by rw [← hcmds]; exact hst.symm, Or.inr hcmds.symm⟩

/-! ### Fresh-instance lemmas -/

theorem init_data_fst (sch : ModelSchema) (kwargs : List (String × Value)) :
    (Model.init sch kwargs)._data.map Prod.fst = sch.fields.map (fun f => f.name) := by
  show (sch.fields.map
      (fun f => (f.name, (alookup f.name kwargs).getD Value.none))).map Prod.fst = _
  rw [List.map_map]
  rfl

theorem init_data_lookup (sch : ModelSchema) (kwargs : List (String × Value)) (n : String)
    (h : n ∈ sch.fields.map (fun f => f.name)) :
    alookup n (Model.init sch kwargs)._data =
      Option.some ((alookup n kwargs).getD Value.none) :=
  alookup_map_name sch.fields (fun nm => (alookup nm kwargs).getD Value.none) n h

theorem init_payload_mem (sch : ModelSchema) (kwargs : List (String × Value))
    (hwf : sch.wf) (f : Field) (hf : f ∈ sch.fields) (hnpk : f.primary_key = false) :
    (f.name, (alookup f.name kwargs).getD Value.none) ∈
      save_payload sch (Model.init sch kwargs) := by
  rw [save_payload]
  by_cases hs : sch.save_modified_only
  · rw [if_pos hs, _get_modified_fields]
    apply List.mem_filter.mpr
    constructor
    · exact List.mem_map.mpr ⟨f, hf, rfl⟩
    · have h1 : f.name ≠ pkName sch := nonpk_ne_pkName sch hwf hf hnpk
      simp [h1, alookup, Model.init]
  · rw [if_neg hs]
    apply List.mem_map.mpr
    refine ⟨f, hf, ?_⟩
    rw [init_data_lookup sch kwargs f.name (List.mem_map_of_mem _ hf)]
    rfl

theorem pairs_mem_of_payload (sch : ModelSchema) (inst : MInstance) (n : String)
    (v : Value) (hp : (n, v) ∈ save_payload sch inst) (hv : v ≠ Value.none) :
    (n, serializeValue (kindOf sch n) v) ∈ save_pairs sch inst := by
  rw [save_pairs]
  exact List.mem_map.mpr ⟨(n, v), List.mem_filter.mpr ⟨hp, by simpa using hv⟩, rfl⟩

/-! ### Claim theorems: connection manager (from src/rohm/connection.py) -/

/-- C8: when no client handle has ever been installed, `get_connection`
constructs the default-configured client (default host and port, no
password), installs it as the process-wide handle, and returns it; when a
handle is installed, `get_connection` returns that handle without
constructing a new client. -/
theorem C8_lazy_default_connection (c : Client) :
    get_connection Option.none = (defaultStrictRedis, Option.some defaultStrictRedis) ∧
      get_connection (Option.some c) = (c, Option.some c) :=
  ⟨rfl, rfl⟩

/-- C9: after `set_client c`, `get_connection` returns exactly the installed
client object `c` (install/current round trip), and installs nothing new. -/
theorem C9_install_roundtrip (c : Client) (conn : Option Client) :
    get_connection (set_client c conn) = (c, set_client c conn) := rfl

/-! ### Claim theorems: model persistence (spec-modelled) -/

/-- C7: calling save on an instance whose primary-key value is not set fails
with the field-validation error kind (InvalidField) and performs no store
write. -/
theorem C7_save_without_pk (sch : ModelSchema) (inst : MInstance) (fc : Bool)
    (st : Store) (hpk : pkValue sch inst = Value.none) :
    save sch inst fc st = Except.error RErr.FieldValidationError ∧
      resultStore (save sch inst fc st) st = st := by
  have h : save sch inst fc st = Except.error RErr.FieldValidationError := by
    rw [save, save_cmds, if_pos hpk]
  exact ⟨h, by rw [h]; rfl⟩

/-- Witness for C7: a fresh instance constructed without its primary key. -/
theorem C7_witness :
    save fooSchema (Model.init fooSchema [("body", Value.str "x")]) false fooStore =
        Except.error RErr.FieldValidationError ∧
      resultStore (save fooSchema (Model.init fooSchema [("body", Value.str "x")]) false
        fooStore) fooStore = fooStore :=
  C7_save_without_pk fooSchema (Model.init fooSchema [("body", Value.str "x")]) false
    fooStore (by decide)

/-- C10: immediately after direct construction, `_loaded_field_names` holds
every declared field name; a field not supplied as an argument holds the
none-value in `_data`; and reading any declared field returns the in-memory
value with zero store reads. -/
theorem C10_fresh_instance_loaded (sch : ModelSchema) (kwargs : List (String × Value))
    (st : Store) (f : String) (hf : f ∈ sch.fields.map (fun g => g.name)) :
    (Model.init sch kwargs)._loaded_field_names = sch.fields.map (fun g => g.name) ∧
    (alookup f kwargs = Option.none →
      alookup f (Model.init sch kwargs)._data = Option.some Value.none) ∧
    getattr sch (Model.init sch kwargs) st f =
      ((alookup f (Model.init sch kwargs)._data).getD Value.none,
        Model.init sch kwargs, []) := by
  refine ⟨rfl, ?_, ?_⟩
  · intro hk
    rw [init_data_lookup sch kwargs f hf, hk]
    rfl
  · rw [getattr,
      if_pos (show f ∈ (Model.init sch kwargs)._loaded_field_names from hf)]

/-- Witness for C10: construction supplying only the primary key. -/
theorem C10_witness :
    (Model.init fooSchema [("name", Value.str "baz")])._loaded_field_names =
        fooSchema.fields.map (fun g => g.name) ∧
      (alookup "body" [("name", Value.str "baz")] = Option.none →
        alookup "body" (Model.init fooSchema [("name", Value.str "baz")])._data =
          Option.some Value.none) ∧
      getattr fooSchema (Model.init fooSchema [("name", Value.str "baz")]) fooStore
          "body" =
        ((alookup "body" (Model.init fooSchema [("name", Value.str "baz")])._data).getD
            Value.none,
          Model.init fooSchema [("name", Value.str "baz")], []) :=
  C10_fresh_instance_loaded fooSchema [("name", Value.str "baz")] fooStore "body"
    (by decide)

/-- C5: reading a field in `_loaded_field_names` returns the value from
`_data` with no store access (even when it is the none-value); reading a
field absent from it issues exactly one single-field read of this instance's
key and that field, records the converted result in `_data`, adds the name
to `_loaded_field_names`, and a subsequent read of the field (against any
store state) issues no store read and returns the recorded value. -/
theorem C5_lazy_field_read (sch : ModelSchema) (inst : MInstance) (st st2 : Store)
    (f : String) :
    (f ∈ inst._loaded_field_names →
      getattr sch inst st f = ((alookup f inst._data).getD Value.none, inst, [])) ∧
    (f ∉ inst._loaded_field_names →
      getattr sch inst st f =
        (from_store (kindOf sch f) (hget st (instKey sch inst) f),
          { inst with
            _data := hset f (from_store (kindOf sch f) (hget st (instKey sch inst) f))
              inst._data,
            _loaded_field_names := f :: inst._loaded_field_names },
          [(instKey sch inst, f)]) ∧
      getattr sch (getattr sch inst st f).2.1 st2 f =
        ((getattr sch inst st f).1, (getattr sch inst st f).2.1, [])) := by
  constructor
  · intro h
    rw [getattr, if_pos h]
  · intro h
    have h1 : getattr sch inst st f =
        (from_store (kindOf sch f) (hget st (instKey sch inst) f),
          { inst with
            _data := hset f (from_store (kindOf sch f) (hget st (instKey sch inst) f))
              inst._data,
            _loaded_field_names := f :: inst._loaded_field_names },
          [(instKey sch inst, f)]) := by
      rw [getattr, if_neg h]
    refine ⟨h1, ?_⟩
    rw [h1]
    rw [getattr, if_pos (List.mem_cons_self f inst._loaded_field_names)]
    rw [show alookup f (hset f (from_store (kindOf sch f)
      (hget st (instKey sch inst) f)) inst._data) =
        Option.some (from_store (kindOf sch f) (hget st (instKey sch inst) f)) from
      alookup_hset_self _ _ _]
    rfl

/-- Witness for C5: a loaded primary key is read from memory; the unloaded
`body` field, once fetched, is re-read with no further store read. -/
theorem C5_witness :
    getattr fooSchema fooInstPart fooStore "name" =
        ((alookup "name" fooInstPart._data).getD Value.none, fooInstPart, []) ∧
      getattr fooSchema (getattr fooSchema fooInstPart fooStore "body").2.1 [] "body" =
        ((getattr fooSchema fooInstPart fooStore "body").1,
          (getattr fooSchema fooInstPart fooStore "body").2.1, []) :=
  ⟨(C5_lazy_field_read fooSchema fooInstPart fooStore [] "name").1 (by decide),
   ((C5_lazy_field_read fooSchema fooInstPart fooStore [] "body").2 (by decide)).2⟩

/-- C1: for every fresh (directly constructed) instance whose primary key
already has a record in the store, save with `force_create` false fails with
AlreadyExists and leaves the store untouched; save with `force_create` true
succeeds, and the store afterwards holds exactly the instance's serialized
value for every non-primary-key declared field (absent for none-values). -/
theorem C1_fresh_save_conflict (sch : ModelSchema) (kwargs : List (String × Value))
    (st : Store) (hwf : sch.wf)
    (hpk : pkValue sch (Model.init sch kwargs) ≠ Value.none)
    (hex : keyExists st (instKey sch (Model.init sch kwargs)) = true) :
    save sch (Model.init sch kwargs) false st = Except.error RErr.AlreadyExists ∧
    resultStore (save sch (Model.init sch kwargs) false st) st = st ∧
    saveOk (save sch (Model.init sch kwargs) true st) = true ∧
    reflectsNonPk sch (Model.init sch kwargs)
      (resultStore (save sch (Model.init sch kwargs) true st) st) = true := by
  have hcondT : ((Model.init sch kwargs)._new && !false &&
      keyExists st (instKey sch (Model.init sch kwargs))) = true := by
    rw [hex]
    rfl
  have herr : save_cmds sch (Model.init sch kwargs) false st =
      Except.error RErr.AlreadyExists := by
    rw [save_cmds, if_neg hpk, if_pos hcondT]
  have h1 : save sch (Model.init sch kwargs) false st =
      Except.error RErr.AlreadyExists := by
    rw [save, herr]
  have hcondF : ¬(((Model.init sch kwargs)._new && !true &&
      keyExists st (instKey sch (Model.init sch kwargs))) = true) := by
    simp
  by_cases hz : (sch.save_modified_only &&
      (save_payload sch (Model.init sch kwargs)).isEmpty) = true
  · have hsc : save_cmds sch (Model.init sch kwargs) true st =
        Except.ok ([], markSaved sch (Model.init sch kwargs)) := by
      rw [save_cmds, if_neg hpk, if_neg hcondF, if_pos hz]
    have hsv : save sch (Model.init sch kwargs) true st =
        Except.ok (st, markSaved sch (Model.init sch kwargs), []) := by
      rw [save, hsc]
      rfl
    have hemp : save_payload sch (Model.init sch kwargs) = [] := by
      simp only [Bool.and_eq_true] at hz
      exact List.isEmpty_iff.mp hz.2
    have hallpk : ∀ g ∈ sch.fields, g.primary_key = true := by
      intro g hg
      cases hb : g.primary_key
      · have hm := init_payload_mem sch kwargs hwf g hg hb
        rw [hemp] at hm
        cases hm
      · rfl
    refine ⟨h1, by rw [h1]; rfl, by rw [hsv]; rfl, ?_⟩
    rw [hsv]
    show reflectsNonPk sch (Model.init sch kwargs) st = true
    apply List.all_eq_true.mpr
    intro g hg
    rw [hallpk g hg]
    rfl
  · have hsc : save_cmds sch (Model.init sch kwargs) true st =
        Except.ok (save_cmd_list sch (Model.init sch kwargs),
          markSaved sch (Model.init sch kwargs)) := by
      rw [save_cmds, if_neg hpk, if_neg hcondF, if_neg hz]
    have hsv : save sch (Model.init sch kwargs) true st =
        Except.ok (applyCmds st (save_cmd_list sch (Model.init sch kwargs)),
          markSaved sch (Model.init sch kwargs),
          save_cmd_list sch (Model.init sch kwargs)) := by
      rw [save, hsc]
    have hnd : ((save_payload sch (Model.init sch kwargs)).map Prod.fst).Nodup := by
      apply payload_fst_nodup sch _ hwf
      rw [init_data_fst]
      exact hwf.1
    refine ⟨h1, by rw [h1]; rfl, by rw [hsv]; rfl, ?_⟩
    rw [hsv]
    show reflectsNonPk sch (Model.init sch kwargs)
      (applyCmds st (save_cmd_list sch (Model.init sch kwargs))) = true
    apply List.all_eq_true.mpr
    intro g hg
    cases hb : g.primary_key
    · have hm := init_payload_mem sch kwargs hwf g hg hb
      have hlook : alookup g.name (Model.init sch kwargs)._data =
          Option.some ((alookup g.name kwargs).getD Value.none) :=
        init_data_lookup sch kwargs g.name (List.mem_map_of_mem _ hg)
      have hh := hget_after_save_cmd_list sch (Model.init sch kwargs) st hnd
        g.name ((alookup g.name kwargs).getD Value.none) hm
      rw [Bool.false_or]
      apply decide_eq_true
      rw [hlook]
      exact hh
    · rfl

/-- Witness for C1: a fresh `foo` instance colliding with the stored record
at key `foo:baz`. -/
theorem C1_witness :
    save fooSchema
        (Model.init fooSchema [("name", Value.str "baz"), ("body", Value.str "foo2")])
        false fooStore = Except.error RErr.AlreadyExists ∧
      resultStore (save fooSchema
        (Model.init fooSchema [("name", Value.str "baz"), ("body", Value.str "foo2")])
        false fooStore) fooStore = fooStore ∧
      saveOk (save fooSchema
        (Model.init fooSchema [("name", Value.str "baz"), ("body", Value.str "foo2")])
        true fooStore) = true ∧
      reflectsNonPk fooSchema
        (Model.init fooSchema [("name", Value.str "baz"), ("body", Value.str "foo2")])
        (resultStore (save fooSchema
          (Model.init fooSchema [("name", Value.str "baz"), ("body", Value.str "foo2")])
          true fooStore) fooStore) = true :=
  C1_fresh_save_conflict fooSchema
    [("name", Value.str "baz"), ("body", Value.str "foo2")] fooStore
    (by decide) (by decide) (by decide)

/-- C2: in every successful save, each payload field holding the none-value
is issued as a field-delete command and the field is absent from the stored
hash afterwards (not an empty string), while each payload field with a
non-none value appears, serialized by its field type, among the pairs of the
bulk field-set. -/
theorem C2_save_partition (sch : ModelSchema) (inst : MInstance) (fc : Bool)
    (st st' : Store) (inst' : MInstance) (cmds : List Cmd) (hwf : sch.wf)
    (hnd : (inst._data.map Prod.fst).Nodup)
    (hok : save sch inst fc st = Except.ok (st', inst', cmds)) :
    partitionOk sch inst cmds st' = true := by
  obtain ⟨hi, hs, hc⟩ := save_ok_cases sch inst fc st st' inst' cmds hok
  have hpnd := payload_fst_nodup sch inst hwf hnd
  cases hc with
  | inl hz =>
    rw [partitionOk, hz.2]
    rfl
  | inr hcl =>
    subst hcl
    subst hs
    rw [partitionOk]
    apply List.all_eq_true.mpr
    intro p hp
    obtain ⟨n, v⟩ := p
    have hh := hget_after_save_cmd_list sch inst st hpnd n v hp
    cases v with
    | none =>
      show (decide _ && decide _) = true
      rw [Bool.and_eq_true]
      constructor
      · exact decide_eq_true (hdel_mem_save_cmd_list sch inst n hp)
      · apply decide_eq_true
        rw [hh]
        rfl
    | str s =>
      apply decide_eq_true
      rw [hmsetPairs_save_cmd_list]
      exact pairs_mem_of_payload sch inst n (Value.str s) hp (by simp)
    | int k =>
      apply decide_eq_true
      rw [hmsetPairs_save_cmd_list]
      exact pairs_mem_of_payload sch inst n (Value.int k) hp (by simp)

/-- Witness for C2: a loaded instance saved with `body` set to the
none-value and `name` kept. -/
theorem C2_witness :
    partitionOk fooSchema (setattr fooInstLoaded "body" Value.none)
      (resultCmds (save fooSchema (setattr fooInstLoaded "body" Value.none) false
        fooStore))
      (resultStore (save fooSchema (setattr fooInstLoaded "body" Value.none) false
        fooStore) fooStore) = true :=
  C2_save_partition fooSchema (setattr fooInstLoaded "body" Value.none) false fooStore
    (resultStore (save fooSchema (setattr fooInstLoaded "body" Value.none) false
      fooStore) fooStore)
    (markSaved fooSchema (setattr fooInstLoaded "body" Value.none))
    (resultCmds (save fooSchema (setattr fooInstLoaded "body" Value.none) false
      fooStore))
    (by decide) (by decide) (by rfl)

/-- C3: batch get with `allow_create` true never propagates a per-id
creation failure: it always succeeds, and each slot, in input order, is the
loaded record when one exists, the hook's instance when the record is
missing and `create_from_id` succeeds, and the none-value when the record is
missing and the hook raises (`Except.error`). -/
theorem C3_batch_create_isolated (sch : ModelSchema) (st : Store)
    (hook : Value → Except String MInstance) (ids : List Value) :
    get_multi sch st true hook ids =
      Except.ok (ids.map (fun idv =>
        if (hgetall st (redisKey sch idv)).isEmpty then (hook idv).toOption
        else Option.some (loadInstance sch idv (hgetall st (redisKey sch idv))))) := by
  induction ids with
  | nil => rfl
  | cons idv rest ih =>
    show (match get_one sch st true hook idv with
      | Except.error e => Except.error e
      | Except.ok slot =>
        match get_multi sch st true hook rest with
        | Except.error e => Except.error e
        | Except.ok others => Except.ok (slot :: others)) = _
    rw [ih]
    by_cases h : (hgetall st (redisKey sch idv)).isEmpty
    · rw [get_one, if_pos h]
      simp [List.isEmpty_iff.mp h]
    · rw [get_one, if_neg h]
      have h2 : ¬(hgetall st (redisKey sch idv) = []) :=
        fun he => h (List.isEmpty_iff.mpr he)
      simp [h2]

/-- C4 counterexample: with `save_modified_only` true, changing exactly one
non-primary-key field to the none-value and saving succeeds but issues no
bulk field-set command at all (only a field-delete), refuting that saving
after changing exactly one non-primary-key field always issues a bulk
field-set containing that field. -/
theorem C4_counterexample :
    _get_modified_fields fooSchemaMod (setattr fooInstLoaded "body" Value.none) =
        [("body", Value.none)] ∧
      saveOk (save fooSchemaMod (setattr fooInstLoaded "body" Value.none) false
        fooStore) = true ∧
      (resultCmds (save fooSchemaMod (setattr fooInstLoaded "body" Value.none) false
        fooStore)).any Cmd.isHmset = false :=
  ⟨by decide, by decide, by decide⟩

/-- C4 (amended): with `save_modified_only` true, saving with no modified
fields issues zero store commands and leaves the store unchanged, and saving
with exactly one modified non-primary-key field issues write commands
touching only that field — a bulk field-set containing only that field when
its new value is non-none, a single field-delete of it when the new value is
the none-value; with `save_modified_only` false, every save transmits every
declared field's current value. -/
theorem C4_save_modified_only (sch : ModelSchema) (inst : MInstance) (st : Store)
    (f : String) (v : Value) (hwf : sch.wf) (hnew : inst._new = false)
    (hpk : pkValue sch inst ≠ Value.none) :
    (sch.save_modified_only = true → _get_modified_fields sch inst = [] →
      save sch inst false st = Except.ok (st, markSaved sch inst, [])) ∧
    (sch.save_modified_only = true → _get_modified_fields sch inst = [(f, v)] →
      writeCmds (resultCmds (save sch inst false st)) =
        (if v = Value.none then [Cmd.hdel (instKey sch inst) f]
         else [Cmd.hmset (instKey sch inst) [(f, serializeValue (kindOf sch f) v)]])) ∧
    (sch.save_modified_only = false →
      transmitsAll sch inst (resultCmds (save sch inst false st)) = true) := by
  have hcond2 : ¬((inst._new && !false && keyExists st (instKey sch inst)) = true) := by
    rw [hnew]
    simp
  refine ⟨?_, ?_, ?_⟩
  · intro hsmo hmod
    have hz : (sch.save_modified_only && (save_payload sch inst).isEmpty) = true := by
      rw [hsmo, save_payload, if_pos hsmo, hmod]
      rfl
    rw [save, save_cmds, if_neg hpk, if_neg hcond2, if_pos hz]
    rfl
  · intro hsmo hmod
    have hpay : save_payload sch inst = [(f, v)] := by
      rw [save_payload, if_pos hsmo, hmod]
    have hz : ¬((sch.save_modified_only && (save_payload sch inst).isEmpty) = true) := by
      rw [hpay]
      simp
    have hrc : resultCmds (save sch inst false st) = save_cmd_list sch inst := by
      rw [save, save_cmds, if_neg hpk, if_neg hcond2, if_neg hz]
      rfl
    rw [hrc]
    by_cases hv : v = Value.none
    · have hnones : save_nones sch inst = [(f, v)] := by
        rw [save_nones, hpay, hv]
        rfl
      have hpairs : save_pairs sch inst = [] := by
        rw [save_pairs, save_sets, hpay, hv]
        rfl
      rw [save_cmd_list, hnones, hpairs, if_pos hv]
      cases httl : sch.ttl <;>
        simp [writeCmds, Cmd.isExpire, List.filter_append, List.filter_cons]
    · have hnones : save_nones sch inst = [] := by
        rw [save_nones, hpay]
        simp [hv]
      have hsets : save_sets sch inst = [(f, v)] := by
        rw [save_sets, hpay]
        simp [hv]
      have hpairs : save_pairs sch inst = [(f, serializeValue (kindOf sch f) v)] := by
        rw [save_pairs, hsets]
        rfl
      rw [save_cmd_list, hnones, hpairs, if_neg hv]
      cases httl : sch.ttl <;>
        simp [writeCmds, Cmd.isExpire, List.filter_append, List.filter_cons]
  · intro hsmo
    have hz : ¬((sch.save_modified_only && (save_payload sch inst).isEmpty) = true) := by
      rw [hsmo]
      simp
    have hrc : resultCmds (save sch inst false st) = save_cmd_list sch inst := by
      rw [save, save_cmds, if_neg hpk, if_neg hcond2, if_neg hz]
      rfl
    rw [hrc, transmitsAll]
    apply List.all_eq_true.mpr
    intro g hg
    have hpm : (g.name, (alookup g.name inst._data).getD Value.none) ∈
        save_payload sch inst := by
      rw [save_payload, if_neg (by simp [hsmo])]
      exact List.mem_map.mpr ⟨g, hg, rfl⟩
    cases hval : (alookup g.name inst._data).getD Value.none with
    | none =>
      apply decide_eq_true
      apply hdel_mem_save_cmd_list
      rw [hval] at hpm
      exact hpm
    | str s =>
      apply decide_eq_true
      rw [hmsetPairs_save_cmd_list]
      have hmem := pairs_mem_of_payload sch inst g.name (Value.str s)
        (by rw [hval] at hpm; exact hpm) (by simp)
      rw [kindOf_eq sch hwf hg] at hmem
      exact hmem
    | int k =>
      apply decide_eq_true
      rw [hmsetPairs_save_cmd_list]
      have hmem := pairs_mem_of_payload sch inst g.name (Value.int k)
        (by rw [hval] at hpm; exact hpm) (by simp)
      rw [kindOf_eq sch hwf hg] at hmem
      exact hmem

/-- Witness for C4 (amended): changing only `body` to a non-none value under
`save_modified_only` issues a bulk field-set containing only that field. -/
theorem C4_witness :
    writeCmds (resultCmds (save fooSchemaMod
        (setattr fooInstLoaded "body" (Value.str "new")) false fooStore)) =
      (if Value.str "new" = Value.none
       then [Cmd.hdel (instKey fooSchemaMod (setattr fooInstLoaded "body"
         (Value.str "new"))) "body"]
       else [Cmd.hmset (instKey fooSchemaMod (setattr fooInstLoaded "body"
         (Value.str "new")))
         [("body", serializeValue (kindOf fooSchemaMod "body") (Value.str "new"))]]) :=
  ((C4_save_modified_only fooSchemaMod (setattr fooInstLoaded "body" (Value.str "new"))
    fooStore "body" (Value.str "new") (by decide) (by decide) (by decide)).2.1
    (by decide) (by decide))

/-- C6 counterexample: with `ttl = 30` and `save_modified_only` true, a save
with no modified fields is successful but issues no store command at all —
in particular no expire — refuting that every successful save issues an
expire command. -/
theorem C6_counterexample :
    saveOk (save fooSchemaTtlMod fooInstLoaded false fooStore) = true ∧
      resultCmds (save fooSchemaTtlMod fooInstLoaded false fooStore) = [] ∧
      (resultCmds (save fooSchemaTtlMod fooInstLoaded false fooStore)).any
        Cmd.isExpire = false :=
  ⟨by decide, by decide, by decide⟩

/-- C6 (amended): on a schema declaring `ttl = n`, every successful save
that issues at least one store command ends its (single, atomic) pipeline
with an expire command for the derived key and `n` seconds — in particular
the expire is issued after the bulk field-set of the same pipeline. -/
theorem C6_ttl_expire (sch : ModelSchema) (inst : MInstance) (fc : Bool)
    (st st' : Store) (inst' : MInstance) (cmds : List Cmd) (n : Nat)
    (hok : save sch inst fc st = Except.ok (st', inst', cmds))
    (httl : sch.ttl = Option.some n) (hne : cmds ≠ []) :
    cmds.getLast? = Option.some (Cmd.expire (instKey sch inst) n) := by
  obtain ⟨_, _, hc⟩ := save_ok_cases sch inst fc st st' inst' cmds hok
  cases hc with
  | inl hz => exact absurd hz.1 hne
  | inr hcl =>
    subst hcl
    have hmatch : (match sch.ttl with
        | Option.some t => [Cmd.expire (instKey sch inst) t]
        | Option.none => []) = [Cmd.expire (instKey sch inst) n] := by
      rw [httl]
    rw [save_cmd_list, hmatch, List.getLast?_concat]

/-- Witness for C6 (amended): a default-mode save on the `ttl = 30` schema
ends with `expire foo:baz 30`. -/
theorem C6_witness :
    (resultCmds (save fooSchemaTtl fooInstLoaded false fooStore)).getLast? =
      Option.some (Cmd.expire (instKey fooSchemaTtl fooInstLoaded) 30) :=
  C6_ttl_expire fooSchemaTtl fooInstLoaded false fooStore
    (resultStore (save fooSchemaTtl fooInstLoaded false fooStore) fooStore)
    (markSaved fooSchemaTtl fooInstLoaded)
    (resultCmds (save fooSchemaTtl fooInstLoaded false fooStore)) 30
    (by rfl) (by rfl) (by decide)

end Rohm
